import Mathlib

/-!
Verification of the Innoventors backend analyzer (`src/backend/analyzer.py`).

The Python module is embedded shallowly: every function is translated to a
total Lean function over `List Char` / `String`.  External boundaries are
modelled as oracles:

* the Azure OpenAI chat call is an oracle `Nat → Nat → Option String`
  (section index, attempt number) where `none` models any exception raised
  by the call (timeout, auth, rate limit, missing content) and `some t`
  models a reply with text `t`;
* Python's `json.loads` / `json.dumps` (standard library) are modelled by
  `parseJson` / `jsonDumpsStrObj` below.  The model covers the JSON grammar
  used by the analyzer: null, booleans, integers, strings (with all escape
  forms produced by `json.dumps(ensure_ascii=True)`, including surrogate
  pairs), arrays and objects.  Float literals are not modelled (`parseJson`
  rejects them); no claim involves numeric fields.

Character classes (`\s`, `\w`, `str.strip`, `str.splitlines`) are modelled
at ASCII precision plus the extra line-break characters Python recognises.
-/

set_option maxRecDepth 8192
set_option maxHeartbeats 1000000

namespace Analyzer

/-- Python `\s` / `str.strip()` whitespace, ASCII model: space, tab, LF, CR,
vertical tab, form feed. -/
def isPyWs (c : Char) : Bool :=
  c = ' ' || c = '\t' || c = '\n' || c = '\r' || c = '\x0b' || c = '\x0c'

/-- Python `\w` word character, ASCII model: letter, digit or underscore. -/
def isWordChar (c : Char) : Bool := c.isAlphanum || c = '_'

/-- Python `str.strip()` on a character list. -/
def pyStripL (cs : List Char) : List Char :=
  ((cs.dropWhile isPyWs).reverse.dropWhile isPyWs).reverse

/-- Python `str.strip()`. -/
def pyStrip (s : String) : String := ⟨pyStripL s.data⟩

/-- Characters at which Python `str.splitlines()` breaks a line. -/
def isLineBreak (c : Char) : Bool :=
  c = '\n' || c = '\r' || c = '\x0b' || c = '\x0c' || c = '\x1c' ||
  c = '\x1d' || c = '\x1e' || c = '\x85' || c = '\u2028' || c = '\u2029'

/-- Worker for `pySplitlines`; `acc` holds the current line reversed. -/
def splitLinesGo (acc : List Char) : List Char → List (List Char)
  | [] => if acc.isEmpty then [] else [acc.reverse]
  | '\r' :: '\n' :: rest => acc.reverse :: splitLinesGo [] rest
  | c :: rest =>
    if isLineBreak c then acc.reverse :: splitLinesGo [] rest
    else splitLinesGo (c :: acc) rest

/-- Python `str.splitlines()`: a trailing line break emits no empty final
line, `\r\n` counts as a single break. -/
def pySplitlines (cs : List Char) : List (List Char) := splitLinesGo [] cs

/-- The scan of `re.sub(r"(?<=\w)\s(?=\w)", "", text)` in `clean_text`:
a whitespace character is deleted exactly when, in the original string, its
left neighbour and right neighbour are both word characters.  `prev` is the
previous character of the original string. -/
def removeIntraGo (prev : Option Char) : List Char → List Char
  | [] => []
  | c :: rest =>
    if isPyWs c
        && (match prev with | some p => isWordChar p | none => false)
        && (match rest.head? with | some n => isWordChar n | none => false) then
      removeIntraGo (some c) rest
    else c :: removeIntraGo (some c) rest

/-- The scan of `re.sub(r"\s+", " ", text)`: each maximal whitespace run
becomes a single space.  `prevWs` says whether the previous original
character was whitespace. -/
def collapseGo (prevWs : Bool) : List Char → List Char
  | [] => []
  | c :: rest =>
    if isPyWs c then
      if prevWs then collapseGo true rest else ' ' :: collapseGo true rest
    else c :: collapseGo false rest

/-- Embedding of `clean_text` from `src/backend/analyzer.py`: the guard
`if not text`, then `re.sub(r"(?<=\w)\s(?=\w)", "", text)` (delete single
whitespace between two word characters), then `re.sub(r"\s+", " ", text)`
and `.strip()`. -/
def cleanTextL (cs : List Char) : List Char :=
  if cs.isEmpty then [] else pyStripL (collapseGo false (removeIntraGo none cs))

/-- `clean_text` on `String`. -/
def clean_text (s : String) : String := ⟨cleanTextL s.data⟩

/-- The scan of `re.sub(r"(?<=Case)(\d)", r" \1", title)`: a space is
inserted before a digit whose four preceding original characters are
literally `Case` (case sensitive).  `prev` is the reversed original
prefix. -/
def insCaseDigitGo (prev : List Char) : List Char → List Char
  | [] => []
  | c :: rest =>
    if c.isDigit then
      match prev with
      | 'e' :: 's' :: 'a' :: 'C' :: _ => ' ' :: c :: insCaseDigitGo (c :: prev) rest
      | _ => c :: insCaseDigitGo (c :: prev) rest
    else c :: insCaseDigitGo (c :: prev) rest

/-- The scan of `re.sub(r"(?<=\d)(?=\()", " ", title)`: a space is inserted
between a digit and an immediately following open parenthesis. -/
def insDigitParenGo (prev : Option Char) : List Char → List Char
  | [] => []
  | c :: rest =>
    if c = '(' && (match prev with | some p => p.isDigit | none => false) then
      ' ' :: c :: insDigitParenGo (some c) rest
    else c :: insDigitParenGo (some c) rest

/-- Python `str.split()` with no argument: split on whitespace runs,
dropping empty tokens.  `cur` holds the current token reversed. -/
def splitWordsGo (cur : List Char) : List Char → List (List Char)
  | [] => if cur.isEmpty then [] else [cur.reverse]
  | c :: rest =>
    if isPyWs c then
      if cur.isEmpty then splitWordsGo [] rest
      else cur.reverse :: splitWordsGo [] rest
    else splitWordsGo (c :: cur) rest

/-- Python `" ".join(...)` on character-list tokens. -/
def joinSpace : List (List Char) → List Char
  | [] => []
  | [w] => w
  | w :: ws => w ++ ' ' :: joinSpace ws

/-- Python `str.isupper()`, ASCII model: at least one letter and no
lowercase letter. -/
def pyIsUpperL (cs : List Char) : Bool :=
  cs.any Char.isAlpha && cs.all (fun c => !c.isLower)

/-- Python `str.capitalize()`, ASCII model: first character uppercased,
the rest lowercased. -/
def pyCapitalize : List Char → List Char
  | [] => []
  | c :: rest => c.toUpper :: rest.map Char.toLower

/-- One token of the `normalize_title` loop: kept as is when it is longer
than one character and `isupper()` (acronym), otherwise capitalized. -/
def capToken (w : List Char) : List Char :=
  if w.length > 1 && pyIsUpperL w then w else pyCapitalize w

/-- Embedding of `normalize_title` from `src/backend/analyzer.py`:
`clean_text`, the two space-inserting substitutions, then per-token
capitalization with acronym preservation. -/
def normalizeTitleL (t : List Char) : List Char :=
  if t.isEmpty then []
  else joinSpace
    ((splitWordsGo [] (insDigitParenGo none (insCaseDigitGo [] (cleanTextL t)))).map capToken)

/-- `normalize_title` on `String`. -/
def normalize_title (s : String) : String := ⟨normalizeTitleL s.data⟩

/-- Case-insensitive literal matcher: drops `lit` from the front of `cs`
comparing lowercased input characters, the model of a `(?i)` literal. -/
def dropLitCI : List Char → List Char → Option (List Char)
  | [], cs => some cs
  | _ :: _, [] => none
  | l :: lt, c :: ct => if c.toLower = l then dropLitCI lt ct else none

/-- Tests whether the next character exists and is a digit (`\d`). -/
def headDigit (cs : List Char) : Bool :=
  match cs.head? with
  | some c => c.isDigit
  | none => false

/-- Embedding of `re.match(r"(?i)(test\s*case\s*\d+|scenario\s*\d+)", line)`:
anchored at the start, trailing text allowed. -/
def matchHeading (cs : List Char) : Bool :=
  (match dropLitCI ['t', 'e', 's', 't'] cs with
   | some r1 =>
     match dropLitCI ['c', 'a', 's', 'e'] (r1.dropWhile isPyWs) with
     | some r2 => headDigit (r2.dropWhile isPyWs)
     | none => false
   | none => false)
  ||
  (match dropLitCI ['s', 'c', 'e', 'n', 'a', 'r', 'i', 'o'] cs with
   | some r1 => headDigit (r1.dropWhile isPyWs)
   | none => false)

/-- One section of a split document: the `{"title": ..., "body": ...}`
dictionaries built by `_split_sections`. -/
structure Section where
  title : String
  body : String
deriving DecidableEq

/-- The line loop of `_split_sections`.  `cur` is the current
`(title, body)` pair (as raw character lists, before normalization).  On a
heading line the current pair is flushed when non-empty and the stripped
line becomes the new title; otherwise the stripped line plus a space is
appended to the body.  After the loop a non-empty current pair is
flushed. -/
def splitGo (cur : List Char × List Char) : List (List Char) → List (List Char × List Char)
  | [] => if cur.1.isEmpty && cur.2.isEmpty then [] else [cur]
  | line :: rest =>
    if matchHeading (pyStripL line) then
      if cur.1.isEmpty && cur.2.isEmpty then splitGo (pyStripL line, []) rest
      else cur :: splitGo (pyStripL line, []) rest
    else splitGo (cur.1, cur.2 ++ pyStripL line ++ [' ']) rest

/-- Embedding of `_split_sections` from `src/backend/analyzer.py`: split
into lines, run the heading loop, then normalize each title with
`normalize_title` and each body with `clean_text`. -/
def split_sections (content : String) : List Section :=
  (splitGo ([], []) (pySplitlines content.data)).map
    (fun p => { title := ⟨normalizeTitleL p.1⟩, body := ⟨cleanTextL p.2⟩ })

example : clean_text "a b" = "ab" := by decide

example : clean_text "a  b" = "a b" := by decide

example : clean_text " " = "" := by decide

example : normalize_title "test case1(email escalated)" = "Testcase1 (emailescalated)" := by
  decide

example : split_sections "" = [] := by decide

example : split_sections "hello world" = [{ title := "", body := "helloworld" }] := by decide

example :
    split_sections "Test Case 1\nall good\nScenario 2\nbroken" =
      [{ title := "Testcase 1", body := "allgood" },
       { title := "Scenario2", body := "broken" }] := by decide

/-- JSON values as produced by `json.loads`.  Numbers are modelled as
integers only: on a float literal the model parser fails where Python
would return a float (no analyzer claim involves numeric fields). -/
inductive Json where
  | null
  | bool (b : Bool)
  | num (n : Int)
  | str (s : String)
  | arr (xs : List Json)
  | obj (kvs : List (String × Json))

/-- JSON inter-token whitespace (`json.decoder` skips space, tab, LF, CR). -/
def isJsonWs (c : Char) : Bool := c = ' ' || c = '\t' || c = '\n' || c = '\r'

/-- Drops leading JSON whitespace. -/
def skipWs (cs : List Char) : List Char := cs.dropWhile isJsonWs

/-- Value of one hex digit, accepting both cases as Python `int(s, 16)`
does inside `\uXXXX` escapes. -/
def hexVal (c : Char) : Option Nat :=
  if '0' ≤ c && c ≤ '9' then some (c.toNat - 48)
  else if 'a' ≤ c && c ≤ 'f' then some (c.toNat - 87)
  else if 'A' ≤ c && c ≤ 'F' then some (c.toNat - 55)
  else none

/-- The two-character JSON escapes accepted by `json.loads`. -/
def simpleUnescape : Char → Option Char
  | '"' => some '"'
  | '\\' => some '\\'
  | '/' => some '/'
  | 'b' => some '\x08'
  | 'f' => some '\x0c'
  | 'n' => some '\n'
  | 'r' => some '\r'
  | 't' => some '\t'
  | _ => none

/-- The combined value of four hex digits of a `\uXXXX` escape. -/
def hex4Val (d1 d2 d3 d4 : Char) : Option Nat :=
  match hexVal d1, hexVal d2, hexVal d3, hexVal d4 with
  | some a, some b, some c, some d => some (((a * 16 + b) * 16 + c) * 16 + d)
  | _, _, _, _ => none

/-- Decodes one escape sequence after a backslash, returning the decoded
character and the remaining input.  `\uXXXX` escapes are decoded and a
high/low surrogate escape pair is recombined into one character as
`json.loads` does.  A lone surrogate escape is rejected (Python would
keep a lone-surrogate `str`, which no Lean `Char` can represent;
`json.dumps` output never contains one). -/
def parseEsc : List Char → Option (Char × List Char)
  | 'u' :: d1 :: d2 :: d3 :: d4 :: rest =>
    (match hex4Val d1 d2 d3 d4 with
     | some n =>
       if n < 0xD800 ∨ 0xDFFF < n then some (Char.ofNat n, rest)
       else if n ≤ 0xDBFF then
         match rest with
         | '\\' :: 'u' :: g1 :: g2 :: g3 :: g4 :: rest2 =>
           (match hex4Val g1 g2 g3 g4 with
            | some m =>
              if 0xDC00 ≤ m ∧ m ≤ 0xDFFF then
                some (Char.ofNat (0x10000 + (n - 0xD800) * 0x400 + (m - 0xDC00)), rest2)
              else none
            | none => none)
         | _ => none
       else none
     | none => none)
  | e :: rest => (simpleUnescape e).map (fun c => (c, rest))
  | [] => none

/-- Parses a JSON string after its opening quote, returning the decoded
characters and the input after the closing quote.  Raw control characters
are rejected (`strict=True`).  The fuel decreases once per decoded
character, so fuel equal to the input length (as callers pass) never runs
out. -/
def parseStringBody : Nat → List Char → Option (List Char × List Char)
  | 0, _ => none
  | _ + 1, [] => none
  | fuel + 1, c :: rest =>
    if c = '"' then some ([], rest)
    else if c = '\\' then
      match parseEsc rest with
      | some (c2, rest2) => (parseStringBody fuel rest2).map (fun p => (c2 :: p.1, p.2))
      | none => none
    else if c.toNat < 0x20 then none
    else (parseStringBody fuel rest).map (fun p => (c :: p.1, p.2))

/-- Decimal digits to a natural number. -/
def digitsToNat (ds : List Char) : Nat :=
  ds.foldl (fun a c => a * 10 + (c.toNat - 48)) 0

/-- Parses a JSON integer literal (optional minus, no leading zero).  A
following `.`, `e` or `E` (a float literal) makes the model fail. -/
def parseNumLit (cs : List Char) : Option (Json × List Char) :=
  let sgn : Bool × List Char :=
    match cs with
    | '-' :: r => (true, r)
    | _ => (false, cs)
  let ds := sgn.2.takeWhile Char.isDigit
  let rest := sgn.2.dropWhile Char.isDigit
  if ds.isEmpty then none
  else if ds.length > 1 && ds.head? == some '0' then none
  else
    match rest with
    | '.' :: _ => none
    | 'e' :: _ => none
    | 'E' :: _ => none
    | _ => some (Json.num (if sgn.1 then -(digitsToNat ds : Int) else (digitsToNat ds : Int)), rest)

mutual

/-- Parses one JSON value; the caller has skipped leading whitespace.  The
fuel only decreases strictly along consumed input, so `length + 1` fuel
(as `parseJson` passes) never runs out on real input. -/
def parseValue : Nat → List Char → Option (Json × List Char)
  | 0, _ => none
  | _ + 1, [] => none
  | _ + 1, '"' :: rest => (parseStringBody rest.length rest).map (fun p => (Json.str ⟨p.1⟩, p.2))
  | n + 1, '\x7b' :: rest =>
    (match skipWs rest with
     | '\x7d' :: r2 => some (Json.obj [], r2)
     | r2 => (parseObjMembers n r2).map (fun p => (Json.obj p.1, p.2)))
  | n + 1, '[' :: rest =>
    (match skipWs rest with
     | ']' :: r2 => some (Json.arr [], r2)
     | r2 => (parseElems n r2).map (fun p => (Json.arr p.1, p.2)))
  | _ + 1, 't' :: rest =>
    (match rest with
     | 'r' :: 'u' :: 'e' :: r => some (Json.bool true, r)
     | _ => none)
  | _ + 1, 'f' :: rest =>
    (match rest with
     | 'a' :: 'l' :: 's' :: 'e' :: r => some (Json.bool false, r)
     | _ => none)
  | _ + 1, 'n' :: rest =>
    (match rest with
     | 'u' :: 'l' :: 'l' :: r => some (Json.null, r)
     | _ => none)
  | _ + 1, c :: rest =>
    if c = '-' || c.isDigit then parseNumLit (c :: rest) else none

/-- Parses the members of a non-empty JSON object, starting at the first
key, up to and including the closing brace. -/
def parseObjMembers : Nat → List Char → Option (List (String × Json) × List Char)
  | 0, _ => none
  | n + 1, '"' :: rest =>
    (match parseStringBody rest.length rest with
     | none => none
     | some (k, r1) =>
       match skipWs r1 with
       | ':' :: r2 =>
         (match parseValue n (skipWs r2) with
          | none => none
          | some (v, r3) =>
            match skipWs r3 with
            | ',' :: r4 =>
              (parseObjMembers n (skipWs r4)).map (fun p => ((⟨k⟩, v) :: p.1, p.2))
            | '\x7d' :: r4 => some ([(⟨k⟩, v)], r4)
            | _ => none)
       | _ => none)
  | _ + 1, _ => none

/-- Parses the elements of a non-empty JSON array, up to and including the
closing bracket. -/
def parseElems : Nat → List Char → Option (List Json × List Char)
  | 0, _ => none
  | n + 1, cs =>
    match parseValue n cs with
    | none => none
    | some (v, r1) =>
      match skipWs r1 with
      | ',' :: r2 => (parseElems n (skipWs r2)).map (fun p => (v :: p.1, p.2))
      | ']' :: r2 => some ([v], r2)
      | _ => none

end

/-- Embedding of `json.loads`: parse one value surrounded by optional
whitespace and require the whole input to be consumed. -/
def parseJson (s : String) : Option Json :=
  match parseValue (s.data.length + 1) (skipWs s.data) with
  | some (v, r) => if (skipWs r).isEmpty then some v else none
  | none => none

/-- Lowercase hex digit, as `json.dumps` emits in `\uXXXX`. -/
def hx (d : Nat) : Char := if d < 10 then Char.ofNat (48 + d) else Char.ofNat (87 + d)

/-- Four lowercase hex digits of `n < 0x10000`, most significant first. -/
def hex4 (n : Nat) : List Char :=
  [hx (n / 4096 % 16), hx (n / 256 % 16), hx (n / 16 % 16), hx (n % 16)]

/-- One character escaped as `json.dumps(ensure_ascii=True)` emits it:
shortcut escapes for quote, backslash, LF, CR, tab, backspace and form
feed; printable ASCII verbatim; everything else `\uXXXX`, with a surrogate
pair for characters above the basic multilingual plane. -/
def escChar (c : Char) : List Char :=
  if c = '"' then ['\\', '"']
  else if c = '\\' then ['\\', '\\']
  else if c = '\n' then ['\\', 'n']
  else if c = '\r' then ['\\', 'r']
  else if c = '\t' then ['\\', 't']
  else if c = '\x08' then ['\\', 'b']
  else if c = '\x0c' then ['\\', 'f']
  else if 0x20 ≤ c.toNat && c.toNat ≤ 0x7e then [c]
  else if c.toNat < 0x10000 then '\\' :: 'u' :: hex4 c.toNat
  else
    ('\\' :: 'u' :: hex4 (0xD800 + (c.toNat - 0x10000) / 0x400)) ++
      ('\\' :: 'u' :: hex4 (0xDC00 + (c.toNat - 0x10000) % 0x400))

/-- A whole string escaped character by character. -/
def escapeL : List Char → List Char
  | [] => []
  | c :: rest => escChar c ++ escapeL rest

/-- One `"key": "value"` member as `json.dumps` renders it, with the
default `": "` separator. -/
def dumpMember (k v : String) : List Char :=
  '"' :: (escapeL k.data ++ '"' :: ':' :: ' ' :: '"' :: (escapeL v.data ++ ['"']))

/-- The members of a string-valued object as `json.dumps` renders them,
joined by the default `", "` separator. -/
def dumpMembers : List (String × String) → List Char
  | [] => []
  | [(k, v)] => dumpMember k v
  | (k, v) :: tl => dumpMember k v ++ ',' :: ' ' :: dumpMembers tl

/-- Embedding of `json.dumps` on a dict with string keys and string values
in insertion order — the only shape the analyzer serializes. -/
def jsonDumpsStrObj (kvs : List (String × String)) : String :=
  ⟨'\x7b' :: (dumpMembers kvs ++ ['\x7d'])⟩

/-- The deterministic fallback analysis string synthesized by
`analyze_text` on final attempt failure: `json.dumps` of the five-field
dict with `summary = body[:150]` and
`root_cause = f"AI parsing failed after {retries} attempts."`. -/
def fallbackAnalysis (retries : Nat) (body : String) : String :=
  jsonDumpsStrObj
    [("summary", ⟨body.data.take 150⟩),
     ("root_cause", "AI parsing failed after " ++ toString retries ++ " attempts."),
     ("recommendation", "Manual review required."),
     ("category", "Error"),
     ("severity", "Unknown")]

/-- Python dict insertion: an existing key keeps its position and gets the
new value, a new key is appended.  `json.loads` builds its dict this way,
so a duplicated key ends with its last value. -/
def dictInsert (m : List (String × Json)) (k : String) (v : Json) : List (String × Json) :=
  if m.any (fun p => p.1 == k) then
    m.map (fun p => if p.1 == k then (p.1, v) else p)
  else m ++ [(k, v)]

/-- The dict built from the parsed key/value pairs in order. -/
def pyDict (kvs : List (String × Json)) : List (String × Json) :=
  kvs.foldl (fun m p => dictInsert m p.1 p.2) []

/-- Python `dict.get(k, d)` on the association-list dict model. -/
def dGet (m : List (String × Json)) (k : String) (d : Json) : Json :=
  match m.find? (fun p => p.1 == k) with
  | some p => p.2
  | none => d

/-- The five-field record produced by `_coerce_to_fields`. -/
structure AnalysisRecord where
  summary : Json
  root_cause : Json
  recommendation : Json
  category : Json
  severity : Json

/-- Embedding of `_coerce_to_fields` from `src/backend/analyzer.py`: on a
successful `json.loads` of an object, `data.get` each of the five keys
with its sentinel default; any exception — parse failure, or `.get` on a
non-dict value (`AttributeError`) — yields the fixed error record. -/
def coerce_to_fields (ai_json : String) : AnalysisRecord :=
  match parseJson ai_json with
  | some (Json.obj kvs) =>
    let data := pyDict kvs
    { summary := dGet data "summary" (Json.str "N/A"),
      root_cause := dGet data "root_cause" (Json.str "N/A"),
      recommendation := dGet data "recommendation" (Json.str "N/A"),
      category := dGet data "category" (Json.str "Uncategorized"),
      severity := dGet data "severity" (Json.str "Unknown") }
  | _ =>
    { summary := Json.str "Invalid AI output",
      root_cause := Json.str "Parsing failed",
      recommendation := Json.str "Manual review required",
      category := Json.str "Error",
      severity := Json.str "Unknown" }

/-- One `{"case": ..., "analysis": ...}` result of `analyze_text`. -/
structure IncidentResult where
  case : String
  analysis : String
deriving DecidableEq

/-- The dict returned by `analyze_text`. -/
structure AnalyzeOutput where
  status : String
  total_incidents : Nat
  analysis : List IncidentResult
deriving DecidableEq

/-- The retry loop `for attempt in range(1, retries + 1)` of
`analyze_text` for one section.  `compl attempt` is the oracle for the
externally observable outcome of attempt number `attempt`: `none` when the
chat call raises, `some raw` when it returns text `raw`.  The reply is
stripped and validated with `json.loads`; on success the loop breaks with
the stripped text, on the last failed attempt the fallback string `fb` is
produced.  Returns the response text together with the number of call
attempts made.  With `retries = 0` the loop body never runs and the
response text stays `""`. -/
def retryLoopAux (compl : Nat → Option String) (fb : String) : Nat → Nat → String × Nat
  | _, 0 => ("", 0)
  | attempt, rem + 1 =>
    match compl attempt with
    | some raw =>
      let t := pyStrip raw
      if (parseJson t).isSome then (t, 1)
      else if rem = 0 then (fb, 1)
      else
        let p := retryLoopAux compl fb (attempt + 1) rem
        (p.1, p.2 + 1)
    | none =>
      if rem = 0 then (fb, 1)
      else
        let p := retryLoopAux compl fb (attempt + 1) rem
        (p.1, p.2 + 1)

/-- One iteration of the section loop of `analyze_text`: the title is
`sec["title"] or f"Incident {idx}"`, then the retry loop runs. -/
def analyzeSection (compl : Nat → Option String) (retries : Nat) (idx : Nat)
    (sec : Section) : IncidentResult × Nat :=
  let title := if sec.title = "" then "Incident " ++ toString idx else sec.title
  let p := retryLoopAux compl (fallbackAnalysis retries sec.body) 1 retries
  ({ case := title, analysis := p.1 }, p.2)

/-- The section loop of `analyze_text` (`enumerate(sections, start=1)`),
keeping the per-section call counts alongside the results. -/
def analyzePairsGo (compl : Nat → Nat → Option String) (retries : Nat) :
    Nat → List Section → List (IncidentResult × Nat)
  | _, [] => []
  | idx, sec :: rest =>
    analyzeSection (compl idx) retries idx sec :: analyzePairsGo compl retries (idx + 1) rest

/-- Embedding of `analyze_text` from `src/backend/analyzer.py`.  The
oracle `compl i a` gives the outcome of call attempt `a` for section `i`;
quantifying over oracles quantifies over every behaviour of the external
completion function.  Totality of this definition is the model of "never
raises past the boundary". -/
def analyze_text (compl : Nat → Nat → Option String) (content : String) (retries : Nat) :
    AnalyzeOutput :=
  let pairs := analyzePairsGo compl retries 1 (split_sections content)
  { status := "success",
    total_incidents := (pairs.map Prod.fst).length,
    analysis := pairs.map Prod.fst }

/-- The number of completion-call attempts `analyze_text` makes for each
section, in section order. -/
def analyzeCalls (compl : Nat → Nat → Option String) (content : String) (retries : Nat) :
    List Nat :=
  (analyzePairsGo compl retries 1 (split_sections content)).map Prod.snd

/-- The externally observable success of one call attempt of a
single-section oracle: `some t` when the call returns text whose stripped
form is valid JSON `t`, `none` when the call raises or its reply fails
JSON validation. -/
def okAttempt (f : Nat → Option String) (a : Nat) : Option String :=
  match f a with
  | none => none
  | some raw => if (parseJson (pyStrip raw)).isSome then some (pyStrip raw) else none

/-- `okAttempt` for the per-section oracle of `analyze_text`.  Two oracles
with the same `okOracle` behave identically through `analyze_text`: a
raising call and a call returning invalid JSON are indistinguishable. -/
def okOracle (compl : Nat → Nat → Option String) (i a : Nat) : Option String :=
  okAttempt (compl i) a

/-- Modelled from the words of claim C8, for comparison with
`normalize_title`: insert a space between a digit and an immediately
following open parenthesis and between the word `Case` and an immediately
following digit, then capitalize each whitespace-delimited token unless it
is entirely uppercase with length greater than one — with no `clean_text`
preprocessing step. -/
def normalize_title_claimed (s : String) : String :=
  ⟨joinSpace ((splitWordsGo [] (insCaseDigitGo [] (insDigitParenGo none s.data))).map capToken)⟩

example :
    parseJson "\x7b\"summary\":\"x\",\"severity\":\"High\"\x7d" =
      some (Json.obj [("summary", Json.str "x"), ("severity", Json.str "High")]) := rfl

example : parseJson "Root Cause: disk full. Summary: crash." = none := rfl

example : parseJson "not json" = none := rfl

example : parseJson " \x7b\x7d " = some (Json.obj []) := rfl

example : parseJson "[1, -2, null, true]" =
    some (Json.arr [Json.num 1, Json.num (-2), Json.null, Json.bool true]) := rfl

example : parseJson "\"a\\u00e9b\"" = some (Json.str ⟨['a', Char.ofNat 0xe9, 'b']⟩) := rfl

example :
    fallbackAnalysis 2 "x" =
      "\x7b\"summary\": \"x\", \"root_cause\": \"AI parsing failed after 2 attempts.\", " ++
        "\"recommendation\": \"Manual review required.\", \"category\": \"Error\", " ++
        "\"severity\": \"Unknown\"\x7d" := by decide

/-! ### Lemmas about the section splitter -/

theorem matchHeading_ne_nil {cs : List Char} (h : matchHeading cs = true) : cs ≠ [] := by
  intro he
  rw [he] at h
  exact absurd h (by decide)

theorem splitLinesGo_ne_nil :
    ∀ (acc cs : List Char), acc ≠ [] ∨ cs ≠ [] → splitLinesGo acc cs ≠ [] := by
  intro acc cs
  induction acc, cs using splitLinesGo.induct with
  | case1 acc hacc =>
    intro h
    rcases h with h | h
    · exact absurd (List.isEmpty_iff.mp hacc) h
    · exact absurd rfl h
  | case2 acc hacc =>
    intro _
    simp [splitLinesGo, hacc]
  | case3 acc rest _ =>
    intro _
    simp [splitLinesGo]
  | case4 acc c rest hne hbrk _ =>
    intro _
    rw [splitLinesGo.eq_3 _ _ _ hne, if_pos hbrk]
    simp
  | case5 acc c rest hne hbrk ih =>
    intro _
    rw [splitLinesGo.eq_3 _ _ _ hne, if_neg hbrk]
    exact ih (Or.inl (by simp))

theorem pySplitlines_ne_nil {cs : List Char} (h : cs ≠ []) : pySplitlines cs ≠ [] :=
  splitLinesGo_ne_nil [] cs (Or.inr h)

theorem splitGo_ne_nil :
    ∀ (lines : List (List Char)) (cur : List Char × List Char),
      cur.1 ≠ [] ∨ cur.2 ≠ [] ∨ lines ≠ [] → splitGo cur lines ≠ [] := by
  intro lines
  induction lines with
  | nil =>
    intro cur h
    have hcond : (cur.1.isEmpty && cur.2.isEmpty) = false := by
      rcases h with h | h | h
      · simp [List.isEmpty_iff, h]
      · simp [List.isEmpty_iff, h]
      · exact absurd rfl h
    simp [splitGo, hcond]
  | cons line rest ih =>
    intro cur _
    simp only [splitGo]
    by_cases hm : matchHeading (pyStripL line) = true
    · rw [if_pos hm]
      by_cases hc : (cur.1.isEmpty && cur.2.isEmpty) = true
      · rw [if_pos hc]
        exact ih _ (Or.inl (matchHeading_ne_nil hm))
      · rw [if_neg hc]
        simp
    · rw [if_neg hm]
      exact ih _ (Or.inr (Or.inl (by simp)))

/-- The body text accumulated by the `_split_sections` loop over a run of
non-heading lines: each line stripped, plus a trailing space. -/
def bodyJoin : List (List Char) → List Char
  | [] => []
  | l :: rest => (pyStripL l ++ [' ']) ++ bodyJoin rest

theorem splitGo_no_heading :
    ∀ (lines : List (List Char)) (t b : List Char), lines ≠ [] →
      (∀ l ∈ lines, matchHeading (pyStripL l) = false) →
      splitGo (t, b) lines = [(t, b ++ bodyJoin lines)] := by
  intro lines
  induction lines with
  | nil => intro t b h _; exact absurd rfl h
  | cons line rest ih =>
    intro t b _ hnh
    simp only [splitGo]
    rw [if_neg (by simp [hnh line (List.mem_cons_self _ _)])]
    rcases Decidable.em (rest = []) with hr | hr
    · subst hr
      simp only [splitGo, bodyJoin]
      rw [if_neg (by simp)]
      simp
    · rw [ih t (b ++ pyStripL line ++ [' ']) hr (fun l hl => hnh l (List.mem_cons_of_mem _ hl))]
      simp [bodyJoin]

/-! ### Claim C2 -/

/-- Counterexample to claim C2: on the empty string `_split_sections`
returns the empty list — there is no single-section fallback in the
splitter. -/
theorem C2_counterexample : split_sections "" = [] := by decide

/-- Claim C2, amended: for every non-empty input string, `_split_sections`
returns at least one section (on the empty string it returns the empty
sequence, see the counterexample). -/
theorem C2_amended (s : String) (h : s ≠ "") : 1 ≤ (split_sections s).length := by
  have hd : s.data ≠ [] := by
    intro hd
    exact h (String.ext (hd.trans rfl))
  have hne : splitGo ([], []) (pySplitlines s.data) ≠ [] :=
    splitGo_ne_nil _ _ (Or.inr (Or.inr (pySplitlines_ne_nil hd)))
  have : (splitGo ([], []) (pySplitlines s.data)).length ≠ 0 := by
    simpa [List.length_eq_zero] using hne
  simp only [split_sections, List.length_map]
  omega

theorem C2_amended_witness : ("a" : String) ≠ "" ∧ 1 ≤ (split_sections "a").length :=
  ⟨by decide, C2_amended "a" (by decide)⟩

/-! ### Claim C3 -/

/-- Counterexample to claim C3: on a heading-free input the single section
produced by `_split_sections` has an empty title, not `"Incident 1"`, and
its body is the `clean_text` of the input (which deletes single
inter-word spaces), not the trimmed input. -/
theorem C3_counterexample :
    split_sections "hello world" = [{ title := "", body := "helloworld" }] ∧
      ("" : String) ≠ "Incident 1" ∧ ("helloworld" : String) ≠ "hello world" :=
  ⟨by decide, by decide, by decide⟩

/-- Claim C3, amended: for every non-empty input with no line matching the
heading pattern, `_split_sections` returns exactly one section whose title
is empty and whose body is `clean_text` of the stripped lines joined with
trailing spaces; the `"Incident 1"` case label is substituted later, by
`analyze_text`, whose single result carries `case = "Incident 1"`. -/
theorem C3_amended (s : String) (h : s ≠ "")
    (hnh : ∀ l ∈ pySplitlines s.data, matchHeading (pyStripL l) = false) :
    split_sections s = [{ title := "", body := ⟨cleanTextL (bodyJoin (pySplitlines s.data))⟩ }] ∧
      ∀ (compl : Nat → Nat → Option String) (retries : Nat),
        (analyze_text compl s retries).analysis.map (fun r => r.case) = ["Incident 1"] := by
  have hd : s.data ≠ [] := by
    intro hd
    exact h (String.ext (hd.trans rfl))
  have hsplit : split_sections s =
      [{ title := "", body := ⟨cleanTextL (bodyJoin (pySplitlines s.data))⟩ }] := by
    unfold split_sections
    rw [splitGo_no_heading _ _ _ (pySplitlines_ne_nil hd) hnh]
    simp [normalizeTitleL]
  refine ⟨hsplit, fun compl retries => ?_⟩
  rw [analyze_text, hsplit]
  simp only [analyzePairsGo, analyzeSection, List.map_cons, List.map_nil, if_true]
  decide

theorem C3_amended_witness :
    split_sections "hello world" =
      [{ title := "",
         body := ⟨cleanTextL (bodyJoin (pySplitlines ("hello world" : String).data))⟩ }] ∧
      (analyze_text (fun _ _ => none) "hello world" 2).analysis.map (fun r => r.case) =
        ["Incident 1"] :=
  ⟨(C3_amended "hello world" (by decide) (by decide)).1,
   (C3_amended "hello world" (by decide) (by decide)).2 (fun _ _ => none) 2⟩

/-! ### Claim C5 -/

/-- Counterexample to claim C5: `_coerce_to_fields` performs no
label-based extraction — on the non-JSON text of the claim it returns the
fixed error record, so `root_cause` is `"Parsing failed"`, not
`"disk full."`. -/
theorem C5_counterexample :
    (coerce_to_fields "Root Cause: disk full. Summary: crash.").root_cause =
        Json.str "Parsing failed" ∧
      (coerce_to_fields "Root Cause: disk full. Summary: crash.").root_cause ≠
        Json.str "disk full." ∧
      (coerce_to_fields "Root Cause: disk full. Summary: crash.").summary ≠
        Json.str "crash." :=
  ⟨rfl,
   fun h => absurd (Json.str.inj h) (by decide),
   fun h => absurd (Json.str.inj h) (by decide)⟩

/-- Claim C5, amended: on every input that does not parse as a JSON object
(parse failure, or a non-object value, whose `.get` raises),
`_coerce_to_fields` returns the fixed error record
`summary = "Invalid AI output"`, `root_cause = "Parsing failed"`,
`recommendation = "Manual review required"`, `category = "Error"`,
`severity = "Unknown"`; it never raises and never extracts labelled
fields from the text. -/
theorem C5_amended (s : String) (h : ∀ kvs, parseJson s ≠ some (Json.obj kvs)) :
    coerce_to_fields s =
      { summary := Json.str "Invalid AI output", root_cause := Json.str "Parsing failed",
        recommendation := Json.str "Manual review required", category := Json.str "Error",
        severity := Json.str "Unknown" } := by
  unfold coerce_to_fields
  cases hp : parseJson s with
  | none => rfl
  | some j =>
    cases j with
    | obj kvs => exact absurd hp (h kvs)
    | null => rfl
    | bool b => rfl
    | num n => rfl
    | str s2 => rfl
    | arr xs => rfl

theorem C5_amended_witness :
    coerce_to_fields "Summary: crash. Root Cause: disk full." =
      { summary := Json.str "Invalid AI output", root_cause := Json.str "Parsing failed",
        recommendation := Json.str "Manual review required", category := Json.str "Error",
        severity := Json.str "Unknown" } :=
  C5_amended _ (fun kvs hk => by
    rw [show parseJson "Summary: crash. Root Cause: disk full." = none from rfl] at hk
    exact Option.noConfusion hk)

/-! ### Claim C7 (counterexample part) -/

/-- Counterexample to claim C7: `clean_text` does not preserve inter-word
single spaces — it deletes a single whitespace character between two word
characters — and a whitespace-only input also yields the empty string. -/
theorem C7_counterexample :
    clean_text "a b" = "ab" ∧ clean_text "a b" ≠ "a b" ∧
      clean_text " " = "" ∧ (" " : String) ≠ "" :=
  ⟨by decide, by decide, by decide, by decide⟩

/-! ### Claim C8 -/

/-- Counterexample to claim C8: `normalize_title` first applies
`clean_text`, which merges the words of the claim's example, so the output
differs from the space-insertion-plus-capitalization behaviour the claim
describes (`normalize_title_claimed`). -/
theorem C8_counterexample :
    normalize_title "test case1(email escalated)" = "Testcase1 (emailescalated)" ∧
      normalize_title_claimed "test case1(email escalated)" = "Test Case1 (email Escalated)" ∧
      normalize_title "test case1(email escalated)" ≠
        normalize_title_claimed "test case1(email escalated)" :=
  ⟨by decide, by decide, by decide⟩

/-- Claim C8, amended: `normalize_title` first applies `clean_text` (which
deletes single whitespace between word characters), then inserts a space
between the literal, case-sensitive word `Case` and an immediately
following digit and between a digit and an immediately following open
parenthesis, then capitalizes each whitespace-delimited token unless the
token is entirely uppercase with length greater than one.  On
`"test case1(email escalated)"` this yields
`"Testcase1 (emailescalated)"`; all-uppercase acronym tokens are
preserved, as in `"TEST CASE 7 (PDF)"`. -/
theorem C8_amended :
    normalize_title "test case1(email escalated)" = "Testcase1 (emailescalated)" ∧
      normalize_title "TEST CASE 7 (PDF)" = "TESTCASE7 (PDF)" ∧
      ∀ w : List Char, pyIsUpperL w = true → 1 < w.length → capToken w = w := by
  refine ⟨by decide, by decide, fun w h1 h2 => ?_⟩
  unfold capToken
  rw [if_pos (by simp [h1]; omega)]

theorem C8_amended_witness :
    pyIsUpperL ['P', 'D', 'F'] = true ∧ 1 < ([' ', 'x'].length + 1) ∧
      capToken ['P', 'D', 'F'] = ['P', 'D', 'F'] :=
  ⟨by decide, by decide, C8_amended.2.2 ['P', 'D', 'F'] (by decide) (by decide)⟩

/-! ### Claim C9 (counterexample part) -/

/-- Counterexample to claim C9: with two `Test Case` headings each
followed by more than 80 characters of body text, `_split_sections` does
return two sections in order, but each body is the `clean_text` of the
intervening text (single inter-word spaces deleted), not that text
itself. -/
theorem C9_counterexample :
    split_sections
        ("Test Case 1\naa bb cc dd ee ff gg hh ii jj kk ll mm nn oo pp qq rr ss tt uu vv ww xx yy zz ab cd\nTest Case 2\none two three four five six seven eight nine ten eleven twelve thirteen fourteen fifteen") =
      [{ title := "Testcase 1",
         body := "aabbccddeeffgghhiijjkkllmmnnooppqqrrssttuuvvwwxxyyzzabcd" },
       { title := "Testcase 2",
         body := "onetwothreefourfivesixseveneightnineteneleventwelvethirteenfourteenfifteen" }] ∧
      ("aabbccddeeffgghhiijjkkllmmnnooppqqrrssttuuvvwwxxyyzzabcd" : String) ≠
        "aa bb cc dd ee ff gg hh ii jj kk ll mm nn oo pp qq rr ss tt uu vv ww xx yy zz ab cd" :=
  ⟨by decide, by decide⟩

/-! ### Claim C4 -/

/-- The value of the last binding of key `k` among the parsed pairs — the
value a Python dict built from those pairs holds for `k`. -/
def dictFind (kvs : List (String × Json)) (k : String) : Option Json :=
  ((kvs.filter (fun p => p.1 == k)).getLast?).map (fun p => p.2)

theorem dGet_map_update (m : List (String × Json)) (k k' : String) (v' d : Json) :
    dGet (m.map (fun p => if p.1 == k' then (p.1, v') else p)) k d =
      match m.find? (fun p => p.1 == k) with
      | some p => if p.1 == k' then v' else p.2
      | none => d := by
  unfold dGet
  rw [List.find?_map]
  have hpred : ((fun p : String × Json => p.1 == k) ∘
      fun p => if p.1 == k' then (p.1, v') else p) = fun p => p.1 == k := by
    funext p
    simp only [Function.comp_apply]
    by_cases hpk : (p.1 == k') = true
    · rw [if_pos hpk]
    · rw [if_neg hpk]
  rw [hpred]
  cases hf : m.find? (fun p => p.1 == k) with
  | none => rfl
  | some p =>
    show (if p.1 == k' then (p.1, v') else p).2 = _
    by_cases hpk : (p.1 == k') = true
    · simp [hpk]
    · simp [hpk]

theorem dGet_dictInsert (m : List (String × Json)) (k k' : String) (v' d : Json) :
    dGet (dictInsert m k' v') k d = if k = k' then v' else dGet m k d := by
  unfold dictInsert
  by_cases hany : m.any (fun p => p.1 == k') = true
  · rw [if_pos hany, dGet_map_update]
    by_cases hkk : k = k'
    · subst hkk
      obtain ⟨p0, hp0m, hp0k⟩ := List.any_eq_true.mp hany
      have hne : m.find? (fun p => p.1 == k) ≠ none := by
        rw [Ne, List.find?_eq_none]
        intro hall
        exact absurd hp0k (by simpa using hall p0 hp0m)
      cases hf : m.find? (fun p => p.1 == k) with
      | none => exact absurd hf hne
      | some p =>
        have hpk := List.find?_some hf
        simp only [] at hpk
        rw [if_pos rfl]
        simp [hpk]
    · rw [if_neg hkk]
      unfold dGet
      cases hf : m.find? (fun p => p.1 == k) with
      | none => rfl
      | some p =>
        have hpk := List.find?_some hf
        simp only [] at hpk
        have hpk' : (p.1 == k') = false := by
          rw [beq_eq_false_iff_ne]
          intro he
          exact hkk ((eq_of_beq hpk).symm.trans he)
        simp [hpk']
  · rw [if_neg hany]
    unfold dGet
    rw [List.find?_append]
    by_cases hkk : k = k'
    · subst hkk
      have hnone : m.find? (fun p => p.1 == k) = none := by
        rw [List.find?_eq_none]
        intro p hp hc
        exact hany (List.any_eq_true.mpr ⟨p, hp, hc⟩)
      rw [hnone, if_pos rfl]
      simp [List.find?]
    · rw [if_neg hkk]
      have hb : (k' == k) = false := by
        rw [beq_eq_false_iff_ne]
        exact fun he => hkk he.symm
      have hlast : List.find? (fun p : String × Json => p.1 == k) [(k', v')] = none := by
        simp [List.find?, hb]
      rw [hlast]
      cases hf : m.find? (fun p => p.1 == k) with
      | none => rfl
      | some p => rfl

theorem dGet_pyDict (kvs : List (String × Json)) (k : String) (d : Json) :
    dGet (pyDict kvs) k d = (dictFind kvs k).getD d := by
  induction kvs using List.reverseRecOn with
  | nil => rfl
  | append_singleton kvs p ih =>
    unfold pyDict
    rw [List.foldl_append]
    show dGet (dictInsert (pyDict kvs) p.1 p.2) k d = _
    rw [dGet_dictInsert]
    unfold dictFind
    rw [List.filter_append]
    by_cases hkk : k = p.1
    · rw [if_pos hkk]
      have hfp : (List.filter (fun q : String × Json => q.1 == k) [p]) = [p] := by
        subst hkk
        simp [List.filter]
      rw [hfp, List.getLast?_concat]
      simp
    · rw [if_neg hkk]
      have hfp : (List.filter (fun q : String × Json => q.1 == k) [p]) = [] := by
        have hb : (p.1 == k) = false := by
          rw [beq_eq_false_iff_ne]
          exact fun he => hkk he.symm
        simp [List.filter, hb]
      rw [hfp, List.append_nil]
      exact ih

/-- Claim C4: on any valid-JSON object input, `_coerce_to_fields` maps
each of the five keys to its supplied value (the last binding, matching
Python dict semantics for duplicate keys) and each absent key to its
sentinel default: `"N/A"` for summary, root_cause and recommendation,
`"Uncategorized"` for category and `"Unknown"` for severity. -/
theorem C4_coerce_defaults (s : String) (kvs : List (String × Json))
    (hp : parseJson s = some (Json.obj kvs)) :
    coerce_to_fields s =
      { summary := (dictFind kvs "summary").getD (Json.str "N/A"),
        root_cause := (dictFind kvs "root_cause").getD (Json.str "N/A"),
        recommendation := (dictFind kvs "recommendation").getD (Json.str "N/A"),
        category := (dictFind kvs "category").getD (Json.str "Uncategorized"),
        severity := (dictFind kvs "severity").getD (Json.str "Unknown") } := by
  unfold coerce_to_fields
  rw [hp]
  simp only [dGet_pyDict]

theorem C4_coerce_defaults_witness :
    parseJson "\x7b\"summary\":\"x\",\"severity\":\"High\"\x7d" =
        some (Json.obj [("summary", Json.str "x"), ("severity", Json.str "High")]) ∧
      coerce_to_fields "\x7b\"summary\":\"x\",\"severity\":\"High\"\x7d" =
        { summary :=
            (dictFind [("summary", Json.str "x"), ("severity", Json.str "High")]
              "summary").getD (Json.str "N/A"),
          root_cause :=
            (dictFind [("summary", Json.str "x"), ("severity", Json.str "High")]
              "root_cause").getD (Json.str "N/A"),
          recommendation :=
            (dictFind [("summary", Json.str "x"), ("severity", Json.str "High")]
              "recommendation").getD (Json.str "N/A"),
          category :=
            (dictFind [("summary", Json.str "x"), ("severity", Json.str "High")]
              "category").getD (Json.str "Uncategorized"),
          severity :=
            (dictFind [("summary", Json.str "x"), ("severity", Json.str "High")]
              "severity").getD (Json.str "Unknown") } :=
  ⟨rfl, C4_coerce_defaults _ _ rfl⟩

/-! ### The `json.dumps` / `json.loads` round trip on the fallback object -/

theorem hexVal_hx (d : Nat) (h : d < 16) : hexVal (hx d) = some d := by
  interval_cases d <;> decide

theorem char_valid_cases (c : Char) :
    c.toNat < 0xD800 ∨ (0xDFFF < c.toNat ∧ c.toNat < 0x110000) := by
  rcases c.valid with h | h
  · exact Or.inl h
  · exact Or.inr h

theorem char_not_surrogate (c : Char) : c.toNat < 0xD800 ∨ 0xDFFF < c.toNat := by
  rcases char_valid_cases c with h | h
  · exact Or.inl h
  · exact Or.inr h.1

theorem hex4Val_hex4 (n : Nat) (h : n < 0x10000) :
    hex4Val (hx (n / 4096 % 16)) (hx (n / 256 % 16)) (hx (n / 16 % 16)) (hx (n % 16)) =
      some n := by
  have hm : ∀ k : Nat, k % 16 < 16 := fun k => Nat.mod_lt _ (by norm_num)
  simp only [hex4Val, hexVal_hx _ (hm _)]
  congr 1
  omega

theorem parseEsc_u_bmp (c : Char) (rest : List Char) (hlt : c.toNat < 0x10000) :
    parseEsc ('u' :: (hex4 c.toNat ++ rest)) = some (c, rest) := by
  simp only [hex4, List.cons_append, List.nil_append]
  simp only [parseEsc, hex4Val_hex4 _ hlt]
  rw [if_pos (char_not_surrogate c), Char.ofNat_toNat]

theorem parseEsc_u_pair (c : Char) (rest : List Char) (hge : 0x10000 ≤ c.toNat) :
    parseEsc ('u' :: (hex4 (0xD800 + (c.toNat - 0x10000) / 0x400) ++
        ('\\' :: 'u' :: (hex4 (0xDC00 + (c.toNat - 0x10000) % 0x400) ++ rest)))) =
      some (c, rest) := by
  have hT : c.toNat < 0x110000 := by
    rcases char_valid_cases c with h | h <;> omega
  have hq : (c.toNat - 0x10000) / 0x400 ≤ 0x3FF := by omega
  have hr : (c.toNat - 0x10000) % 0x400 < 0x400 := Nat.mod_lt _ (by norm_num)
  simp only [hex4, List.cons_append, List.nil_append]
  simp only [parseEsc, hex4Val_hex4 _ (by omega : 0xD800 + (c.toNat - 0x10000) / 0x400 < 0x10000),
    hex4Val_hex4 _ (by omega : 0xDC00 + (c.toNat - 0x10000) % 0x400 < 0x10000)]
  rw [if_neg (by omega), if_pos (by omega), if_pos (by constructor <;> omega)]
  have hcomb :
      0x10000 + (0xD800 + (c.toNat - 0x10000) / 0x400 - 0xD800) * 0x400 +
        (0xDC00 + (c.toNat - 0x10000) % 0x400 - 0xDC00) = c.toNat := by
    omega
  rw [hcomb, Char.ofNat_toNat]

theorem parseStringBody_backslash (fuel : Nat) (tail : List Char) :
    parseStringBody (fuel + 1) ('\\' :: tail) =
      match parseEsc tail with
      | some (c2, rest2) => (parseStringBody fuel rest2).map (fun p => (c2 :: p.1, p.2))
      | none => none := rfl

theorem parseStringBody_escChar (c : Char) (rest : List Char) (fuel : Nat) :
    parseStringBody (fuel + 1) (escChar c ++ rest) =
      (parseStringBody fuel rest).map (fun p => (c :: p.1, p.2)) := by
  by_cases h1 : c = '"'
  · subst h1; rfl
  by_cases h2 : c = '\\'
  · subst h2; rfl
  by_cases h3 : c = '\n'
  · subst h3; rfl
  by_cases h4 : c = '\r'
  · subst h4; rfl
  by_cases h5 : c = '\t'
  · subst h5; rfl
  by_cases h6 : c = '\x08'
  · subst h6; rfl
  by_cases h7 : c = '\x0c'
  · subst h7; rfl
  by_cases h8 : (0x20 ≤ c.toNat && c.toNat ≤ 0x7e) = true
  · have he : escChar c = [c] := by
      unfold escChar
      rw [if_neg h1, if_neg h2, if_neg h3, if_neg h4, if_neg h5, if_neg h6, if_neg h7, if_pos h8]
    have h8' : 0x20 ≤ c.toNat ∧ c.toNat ≤ 0x7e := by simpa using h8
    rw [he]
    show parseStringBody (fuel + 1) (c :: rest) = _
    simp only [parseStringBody]
    rw [if_neg h1, if_neg h2, if_neg (by omega)]
  by_cases h9 : c.toNat < 0x10000
  · have he : escChar c = '\\' :: 'u' :: hex4 c.toNat := by
      unfold escChar
      rw [if_neg h1, if_neg h2, if_neg h3, if_neg h4, if_neg h5, if_neg h6, if_neg h7,
        if_neg h8, if_pos h9]
    rw [he]
    show parseStringBody (fuel + 1) ('\\' :: ('u' :: (hex4 c.toNat ++ rest))) = _
    rw [parseStringBody_backslash, parseEsc_u_bmp c rest h9]
  · have he : escChar c =
        '\\' :: 'u' :: hex4 (0xD800 + (c.toNat - 0x10000) / 0x400) ++
          ('\\' :: 'u' :: hex4 (0xDC00 + (c.toNat - 0x10000) % 0x400)) := by
      unfold escChar
      rw [if_neg h1, if_neg h2, if_neg h3, if_neg h4, if_neg h5, if_neg h6, if_neg h7,
        if_neg h8, if_neg h9]
    rw [he]
    show parseStringBody (fuel + 1)
        ('\\' :: ('u' :: (hex4 (0xD800 + (c.toNat - 0x10000) / 0x400) ++
          ('\\' :: 'u' :: (hex4 (0xDC00 + (c.toNat - 0x10000) % 0x400) ++ rest))))) = _
    rw [parseStringBody_backslash, parseEsc_u_pair c rest (by omega)]

theorem parseStringBody_escapeL (cs : List Char) :
    ∀ (rest : List Char) (fuel : Nat), cs.length + 1 ≤ fuel →
      parseStringBody fuel (escapeL cs ++ '"' :: rest) = some (cs, rest) := by
  induction cs with
  | nil =>
    intro rest fuel hf
    obtain ⟨f, rfl⟩ : ∃ f, fuel = f + 1 := ⟨fuel - 1, by omega⟩
    rfl
  | cons c cs ih =>
    intro rest fuel hf
    obtain ⟨f, rfl⟩ : ∃ f, fuel = f + 1 := ⟨fuel - 1, by omega⟩
    simp only [escapeL, List.append_assoc]
    rw [parseStringBody_escChar, ih rest f (by simp only [List.length_cons] at hf; omega)]
    rfl

theorem escChar_ne_nil (c : Char) : escChar c ≠ [] := by
  unfold escChar
  split_ifs <;> simp [hex4]

theorem escapeL_length_ge (cs : List Char) : cs.length ≤ (escapeL cs).length := by
  induction cs with
  | nil => simp [escapeL]
  | cons c cs ih =>
    have h1 : 1 ≤ (escChar c).length := by
      cases h : escChar c with
      | nil => exact absurd h (escChar_ne_nil c)
      | cons a l => simp
    simp only [escapeL, List.length_append, List.length_cons]
    omega

theorem skipWs_colon (xs : List Char) : skipWs (':' :: xs) = ':' :: xs := rfl

theorem skipWs_space (xs : List Char) : skipWs (' ' :: xs) = skipWs xs := rfl

theorem skipWs_quote (xs : List Char) : skipWs ('"' :: xs) = '"' :: xs := rfl

theorem skipWs_comma (xs : List Char) : skipWs (',' :: xs) = ',' :: xs := rfl

theorem skipWs_rbrace (xs : List Char) : skipWs ('\x7d' :: xs) = '\x7d' :: xs := rfl

theorem skipWs_lbrace (xs : List Char) : skipWs ('\x7b' :: xs) = '\x7b' :: xs := rfl

theorem string_eta (s : String) : (⟨s.data⟩ : String) = s := rfl

theorem parseStringBody_dumpStr (s : String) (tail : List Char) :
    parseStringBody (escapeL s.data ++ '"' :: tail).length (escapeL s.data ++ '"' :: tail) =
      some (s.data, tail) := by
  apply parseStringBody_escapeL
  have := escapeL_length_ge s.data
  simp only [List.length_append, List.length_cons]
  omega

theorem dumpMembers_cons_head (p : String × String) (tl : List (String × String)) :
    ∃ ys, dumpMembers (p :: tl) = '"' :: ys := by
  obtain ⟨k, v⟩ := p
  rcases tl with _ | ⟨q, tl'⟩
  · exact ⟨_, rfl⟩
  · exact ⟨_, rfl⟩

theorem skipWs_dump_cons (p : String × String) (tl : List (String × String))
    (rest : List Char) :
    skipWs (dumpMembers (p :: tl) ++ rest) = dumpMembers (p :: tl) ++ rest := by
  obtain ⟨ys, hys⟩ := dumpMembers_cons_head p tl
  rw [hys]
  rfl

theorem parseObjMembers_dump :
    ∀ (kvs : List (String × String)) (fuel : Nat) (rest : List Char), kvs ≠ [] →
      kvs.length + 1 ≤ fuel →
      parseObjMembers fuel (dumpMembers kvs ++ '\x7d' :: rest) =
        some (kvs.map (fun p => (p.1, Json.str p.2)), rest) := by
  intro kvs
  induction kvs with
  | nil => intro fuel rest h _; exact absurd rfl h
  | cons p tl ih =>
    obtain ⟨k, v⟩ := p
    intro fuel rest _ hf
    obtain ⟨f, rfl⟩ : ∃ f, fuel = f + 1 := ⟨fuel - 1, by omega⟩
    have hf1 : ∃ f2, f = f2 + 1 := ⟨f - 1, by simp at hf; omega⟩
    obtain ⟨f2, rfl⟩ := hf1
    rcases tl with _ | ⟨q, tl'⟩
    · simp only [dumpMembers, dumpMember, List.cons_append, List.append_assoc,
        List.nil_append]
      simp only [parseObjMembers, parseStringBody_dumpStr, skipWs_colon, skipWs_space,
        skipWs_quote, parseValue, Option.map_some']
      simp [skipWs_rbrace, string_eta]
    · simp only [dumpMembers, dumpMember, List.cons_append, List.append_assoc,
        List.nil_append]
      simp only [parseObjMembers, parseStringBody_dumpStr, skipWs_colon, skipWs_space,
        skipWs_quote, parseValue, Option.map_some']
      simp only [skipWs_comma]
      rw [skipWs_space, skipWs_dump_cons q tl' ('\x7d' :: rest)]
      rw [ih (f2 + 1) rest (by simp) (by simp at hf ⊢; omega)]
      simp [string_eta]

theorem parseValue_dumpObj (kvs : List (String × String)) (hne : kvs ≠ [])
    (fuel : Nat) (rest : List Char) (hf : kvs.length + 2 ≤ fuel) :
    parseValue fuel ('\x7b' :: (dumpMembers kvs ++ '\x7d' :: rest)) =
      some (Json.obj (kvs.map (fun p => (p.1, Json.str p.2))), rest) := by
  obtain ⟨f, rfl⟩ : ∃ f, fuel = f + 1 := ⟨fuel - 1, by omega⟩
  rcases kvs with _ | ⟨p, tl⟩
  · exact absurd rfl hne
  simp only [parseValue]
  rw [skipWs_dump_cons p tl ('\x7d' :: rest)]
  obtain ⟨ys, hys⟩ := dumpMembers_cons_head p tl
  rw [hys, List.cons_append]
  show Option.map (fun p => (Json.obj p.1, p.2))
      (parseObjMembers f ('"' :: (ys ++ '\x7d' :: rest))) = _
  rw [← List.cons_append, ← hys]
  rw [parseObjMembers_dump (p :: tl) f rest (by simp) (by simp at hf ⊢; omega)]
  rfl

theorem dumpMember_length_ge (k v : String) : 1 ≤ (dumpMember k v).length := by
  simp [dumpMember]

theorem dumpMembers_length_ge :
    ∀ kvs : List (String × String), kvs.length ≤ (dumpMembers kvs).length := by
  intro kvs
  induction kvs with
  | nil => simp [dumpMembers]
  | cons p tl ih =>
    obtain ⟨k, v⟩ := p
    rcases tl with _ | ⟨q, tl'⟩
    · simp [dumpMembers, dumpMember]
    · simp only [dumpMembers, List.length_append, List.length_cons]
      have := dumpMember_length_ge k v
      simp at ih ⊢
      omega

theorem parseJson_dumpsStrObj (kvs : List (String × String)) (hne : kvs ≠ []) :
    parseJson (jsonDumpsStrObj kvs) =
      some (Json.obj (kvs.map (fun p => (p.1, Json.str p.2)))) := by
  unfold parseJson
  have hdata : (jsonDumpsStrObj kvs).data = '\x7b' :: (dumpMembers kvs ++ ['\x7d']) := rfl
  rw [hdata, skipWs_lbrace]
  have hlen : kvs.length + 2 ≤ ('\x7b' :: (dumpMembers kvs ++ ['\x7d'])).length + 1 := by
    have := dumpMembers_length_ge kvs
    simp only [List.length_cons, List.length_append]
    omega
  rw [show ('\x7b' :: (dumpMembers kvs ++ ['\x7d']) : List Char) =
    '\x7b' :: (dumpMembers kvs ++ '\x7d' :: []) from rfl]
  rw [parseValue_dumpObj kvs hne _ [] hlen]
  rfl

theorem parseJson_fallbackAnalysis (retries : Nat) (body : String) :
    parseJson (fallbackAnalysis retries body) =
      some (Json.obj
        [("summary", Json.str ⟨body.data.take 150⟩),
         ("root_cause", Json.str ("AI parsing failed after " ++ toString retries ++ " attempts.")),
         ("recommendation", Json.str "Manual review required."),
         ("category", Json.str "Error"),
         ("severity", Json.str "Unknown")]) := by
  unfold fallbackAnalysis
  rw [parseJson_dumpsStrObj _ (by simp)]
  rfl

/-! ### Lemmas about the retry loop and the section loop -/

theorem retryLoopAux_all_fail (compl : Nat → Option String) (fb : String)
    (hfail : ∀ a t, compl a = some t → parseJson (pyStrip t) = none) :
    ∀ (rem attempt : Nat), 1 ≤ rem → retryLoopAux compl fb attempt rem = (fb, rem) := by
  intro rem
  induction rem with
  | zero => intro attempt h; omega
  | succ rem ih =>
    intro attempt _
    simp only [retryLoopAux]
    cases hc : compl attempt with
    | none =>
      rcases Nat.eq_zero_or_pos rem with hr | hr
      · subst hr; simp
      · rw [if_neg (by omega)]
        simp [ih (attempt + 1) hr]
    | some t =>
      have hp : parseJson (pyStrip t) = none := hfail attempt t hc
      simp only [hp, Option.isSome_none, Bool.false_eq_true, if_false]
      rcases Nat.eq_zero_or_pos rem with hr | hr
      · subst hr; simp
      · rw [if_neg (by omega)]
        simp [ih (attempt + 1) hr]

theorem retryLoopAux_fb_or_valid (compl : Nat → Option String) (fb : String) :
    ∀ (rem attempt : Nat), 1 ≤ rem →
      (retryLoopAux compl fb attempt rem).1 = fb ∨
        (parseJson (retryLoopAux compl fb attempt rem).1).isSome = true := by
  intro rem
  induction rem with
  | zero => intro attempt h; omega
  | succ rem ih =>
    intro attempt _
    simp only [retryLoopAux]
    cases hc : compl attempt with
    | none =>
      rcases Nat.eq_zero_or_pos rem with hr | hr
      · subst hr; simp
      · rw [if_neg (by omega)]
        simpa using ih (attempt + 1) hr
    | some t =>
      by_cases hp : (parseJson (pyStrip t)).isSome = true
      · simp only [hp, if_true]
        exact Or.inr trivial
      · have hp' : (parseJson (pyStrip t)).isSome = false := by simpa using hp
        simp only [hp', Bool.false_eq_true, if_false]
        rcases Nat.eq_zero_or_pos rem with hr | hr
        · subst hr; simp
        · rw [if_neg (by omega)]
          simpa using ih (attempt + 1) hr

theorem retryLoopAux_congr (compl1 compl2 : Nat → Option String) (fb : String)
    (hok : ∀ a, okAttempt compl1 a = okAttempt compl2 a) :
    ∀ (rem attempt : Nat),
      retryLoopAux compl1 fb attempt rem = retryLoopAux compl2 fb attempt rem := by
  intro rem
  induction rem with
  | zero => intro attempt; rfl
  | succ rem ih =>
    intro attempt
    have h := hok attempt
    simp only [retryLoopAux]
    cases hc1 : compl1 attempt with
    | none =>
      cases hc2 : compl2 attempt with
      | none => simp [ih (attempt + 1)]
      | some t2 =>
        simp only [okAttempt, hc1, hc2] at h
        by_cases hv2 : (parseJson (pyStrip t2)).isSome = true
        · rw [if_pos hv2] at h
          exact absurd h.symm (by simp)
        · have hv2' : (parseJson (pyStrip t2)).isSome = false := by simpa using hv2
          simp only [hv2', Bool.false_eq_true, if_false, ih (attempt + 1)]
    | some t1 =>
      cases hc2 : compl2 attempt with
      | none =>
        simp only [okAttempt, hc1, hc2] at h
        by_cases hv1 : (parseJson (pyStrip t1)).isSome = true
        · rw [if_pos hv1] at h
          exact absurd h (by simp)
        · have hv1' : (parseJson (pyStrip t1)).isSome = false := by simpa using hv1
          simp only [hv1', Bool.false_eq_true, if_false, ih (attempt + 1)]
      | some t2 =>
        simp only [okAttempt, hc1, hc2] at h
        by_cases hv1 : (parseJson (pyStrip t1)).isSome = true
        · rw [if_pos hv1] at h
          by_cases hv2 : (parseJson (pyStrip t2)).isSome = true
          · rw [if_pos hv2] at h
            simp only [Option.some.injEq] at h
            simp only [hv1, hv2, if_true, h]
          · rw [if_neg hv2] at h
            exact absurd h (by simp)
        · by_cases hv2 : (parseJson (pyStrip t2)).isSome = true
          · rw [if_neg hv1, if_pos hv2] at h
            exact absurd h.symm (by simp)
          · have hv1' : (parseJson (pyStrip t1)).isSome = false := by simpa using hv1
            have hv2' : (parseJson (pyStrip t2)).isSome = false := by simpa using hv2
            simp only [hv1', hv2', Bool.false_eq_true, if_false, ih (attempt + 1)]

theorem analyzePairsGo_length (compl : Nat → Nat → Option String) (retries : Nat) :
    ∀ (secs : List Section) (idx : Nat),
      (analyzePairsGo compl retries idx secs).length = secs.length := by
  intro secs
  induction secs with
  | nil => intro idx; rfl
  | cons sec rest ih =>
    intro idx
    simp [analyzePairsGo, ih (idx + 1)]

theorem analyzePairsGo_case (compl : Nat → Nat → Option String) (retries : Nat) :
    ∀ (secs : List Section) (idx i : Nat),
      ((analyzePairsGo compl retries idx secs).map (fun pr => pr.1.case)).get? i =
        (secs.get? i).map
          (fun sec => if sec.title = "" then "Incident " ++ toString (i + idx)
            else sec.title) := by
  intro secs
  induction secs with
  | nil => intro idx i; rfl
  | cons sec rest ih =>
    intro idx i
    cases i with
    | zero =>
      simp [analyzePairsGo, analyzeSection]
    | succ j =>
      simp only [analyzePairsGo, List.map_cons, List.get?]
      rw [ih (idx + 1) j]
      have harith : j + (idx + 1) = j + 1 + idx := by omega
      rw [harith]

theorem analyzePairsGo_congr (compl1 compl2 : Nat → Nat → Option String) (retries : Nat)
    (hok : ∀ i a, okOracle compl1 i a = okOracle compl2 i a) :
    ∀ (secs : List Section) (idx : Nat),
      analyzePairsGo compl1 retries idx secs = analyzePairsGo compl2 retries idx secs := by
  intro secs
  induction secs with
  | nil => intro idx; rfl
  | cons sec rest ih =>
    intro idx
    simp only [analyzePairsGo, analyzeSection]
    rw [retryLoopAux_congr (compl1 idx) (compl2 idx) _ (fun a => hok idx a), ih (idx + 1)]

theorem incident_ne_empty (idx : Nat) : ("Incident " ++ toString idx) ≠ "" := by
  intro h
  have hd : ("Incident " ++ toString idx).data = ("" : String).data := by rw [h]
  rw [String.data_append] at hd
  rcases List.append_eq_nil.mp hd with ⟨h1, _⟩
  exact absurd h1 (by decide)

theorem analyzePairsGo_valid (compl : Nat → Nat → Option String) (retries : Nat)
    (hr : 1 ≤ retries) :
    ∀ (secs : List Section) (idx : Nat),
      ∀ pr ∈ analyzePairsGo compl retries idx secs,
        (parseJson pr.1.analysis).isSome = true ∧ pr.1.case ≠ "" := by
  intro secs
  induction secs with
  | nil => intro idx pr hpr; simp [analyzePairsGo] at hpr
  | cons sec rest ih =>
    intro idx pr hpr
    simp only [analyzePairsGo, List.mem_cons] at hpr
    rcases hpr with hpr | hpr
    · subst hpr
      constructor
      · rcases retryLoopAux_fb_or_valid (compl idx) (fallbackAnalysis retries sec.body)
            retries 1 hr with h | h
        · simp only [analyzeSection, h, parseJson_fallbackAnalysis]
          rfl
        · simpa [analyzeSection] using h
      · simp only [analyzeSection]
        by_cases ht : sec.title = ""
        · simp only [ht, if_true]
          exact incident_ne_empty idx
        · simp only [ht, if_false]
          exact ht
    · exact ih (idx + 1) pr hpr

theorem analyzePairsGo_all_fail (compl : Nat → Nat → Option String) (retries : Nat)
    (hr : 1 ≤ retries)
    (hfail : ∀ i a t, compl i a = some t → parseJson (pyStrip t) = none) :
    ∀ (secs : List Section) (idx : Nat),
      (analyzePairsGo compl retries idx secs).map (fun pr => pr.1.analysis) =
          secs.map (fun sec => fallbackAnalysis retries sec.body) ∧
        (analyzePairsGo compl retries idx secs).map Prod.snd =
          secs.map (fun _ => retries) := by
  intro secs
  induction secs with
  | nil => intro idx; exact ⟨rfl, rfl⟩
  | cons sec rest ih =>
    intro idx
    have hloop := retryLoopAux_all_fail (compl idx) (fallbackAnalysis retries sec.body)
      (fun a t h => hfail idx a t h) retries 1 hr
    constructor
    · simp only [analyzePairsGo, analyzeSection, List.map_cons, hloop, (ih (idx + 1)).1]
    · simp only [analyzePairsGo, analyzeSection, List.map_cons, hloop, (ih (idx + 1)).2]

/-! ### Claim C1 -/

/-- Claim C1: with `retries = 2` and every call/parse attempt failing,
`analyze_text` makes exactly 2 call attempts per section, and each
section's result carries the deterministic fallback analysis string, whose
JSON content is `summary = body[:150]`,
`root_cause = "AI parsing failed after 2 attempts."`,
`recommendation = "Manual review required."`, `category = "Error"` and
`severity = "Unknown"`. -/
theorem C1_analyze_fallback (content : String) (compl : Nat → Nat → Option String)
    (hfail : ∀ i a t, compl i a = some t → parseJson (pyStrip t) = none) :
    (analyze_text compl content 2).analysis.map (fun r => r.analysis) =
        (split_sections content).map (fun sec => fallbackAnalysis 2 sec.body) ∧
      analyzeCalls compl content 2 = (split_sections content).map (fun _ => 2) ∧
      ∀ sec ∈ split_sections content,
        parseJson (fallbackAnalysis 2 sec.body) =
          some (Json.obj
            [("summary", Json.str ⟨sec.body.data.take 150⟩),
             ("root_cause", Json.str "AI parsing failed after 2 attempts."),
             ("recommendation", Json.str "Manual review required."),
             ("category", Json.str "Error"),
             ("severity", Json.str "Unknown")]) := by
  obtain ⟨h1, h2⟩ :=
    analyzePairsGo_all_fail compl 2 (by omega) hfail (split_sections content) 1
  refine ⟨?_, ?_, ?_⟩
  · show ((analyzePairsGo compl 2 1 (split_sections content)).map Prod.fst).map
        (fun r => r.analysis) = _
    rw [List.map_map]
    exact h1
  · exact h2
  · intro sec _
    rw [parseJson_fallbackAnalysis]
    rw [show ("AI parsing failed after " ++ toString 2 ++ " attempts.") =
      "AI parsing failed after 2 attempts." from by decide]

theorem C1_analyze_fallback_witness :
    (analyze_text (fun _ _ => none) "Test Case 1\nboom" 2).analysis.map (fun r => r.analysis) =
        (split_sections "Test Case 1\nboom").map (fun sec => fallbackAnalysis 2 sec.body) ∧
      analyzeCalls (fun _ _ => none) "Test Case 1\nboom" 2 =
        (split_sections "Test Case 1\nboom").map (fun _ => 2) :=
  ⟨(C1_analyze_fallback "Test Case 1\nboom" (fun _ _ => none)
      (fun _ _ _ h => Option.noConfusion h)).1,
   (C1_analyze_fallback "Test Case 1\nboom" (fun _ _ => none)
      (fun _ _ _ h => Option.noConfusion h)).2.1⟩

/-! ### Claim C6 -/

/-- Claim C6: `analyze_text` yields exactly one result per section, in
section order (the i-th case label is the i-th section's title, or
`"Incident <i+1>"` when that title is empty); it is a total function of
the oracle (never raises); and two oracles indistinguishable at the
call/parse boundary — a raising call and a call returning invalid JSON
both have `okOracle = none` — produce identical output. -/
theorem C6_analyze_shape (content : String) (retries : Nat)
    (compl1 compl2 : Nat → Nat → Option String)
    (hok : ∀ i a, okOracle compl1 i a = okOracle compl2 i a) :
    (analyze_text compl1 content retries).analysis.length = (split_sections content).length ∧
      (∀ i : Nat,
        ((analyze_text compl1 content retries).analysis.map (fun r => r.case)).get? i =
          ((split_sections content).get? i).map
            (fun sec => if sec.title = "" then "Incident " ++ toString (i + 1)
              else sec.title)) ∧
      analyze_text compl1 content retries = analyze_text compl2 content retries := by
  refine ⟨?_, ?_, ?_⟩
  · show ((analyzePairsGo compl1 retries 1 (split_sections content)).map Prod.fst).length = _
    rw [List.length_map]
    exact analyzePairsGo_length compl1 retries (split_sections content) 1
  · intro i
    show (((analyzePairsGo compl1 retries 1 (split_sections content)).map Prod.fst).map
        (fun r => r.case)).get? i = _
    rw [List.map_map]
    exact analyzePairsGo_case compl1 retries (split_sections content) 1 i
  · unfold analyze_text
    rw [analyzePairsGo_congr compl1 compl2 retries hok (split_sections content) 1]

theorem C6_analyze_shape_witness :
    (analyze_text (fun _ _ => none) "Test Case 1\nboom" 2).analysis.length =
        (split_sections "Test Case 1\nboom").length ∧
      analyze_text (fun _ _ => none) "Test Case 1\nboom" 2 =
        analyze_text (fun _ _ => some "not json") "Test Case 1\nboom" 2 :=
  ⟨(C6_analyze_shape "Test Case 1\nboom" 2 (fun _ _ => none) (fun _ _ => some "not json")
      (fun _ _ => rfl)).1,
   (C6_analyze_shape "Test Case 1\nboom" 2 (fun _ _ => none) (fun _ _ => some "not json")
      (fun _ _ => rfl)).2.2⟩

/-! ### Claim C10 -/

/-- Claim C10: with at least one retry allowed, every element of the list
returned by `analyze_text` has an analysis string that parses as valid
JSON — a validated model reply or the synthesized fallback — and a
non-empty case label (the section title, or `"Incident <idx>"` when the
title is empty). -/
theorem C10_results_wellformed (content : String) (compl : Nat → Nat → Option String)
    (retries : Nat) (hr : 1 ≤ retries) :
    ∀ r ∈ (analyze_text compl content retries).analysis,
      (parseJson r.analysis).isSome = true ∧ r.case ≠ "" := by
  intro r hr2
  have : ∃ pr ∈ analyzePairsGo compl retries 1 (split_sections content), pr.1 = r := by
    simpa [analyze_text] using hr2
  obtain ⟨pr, hpr, hpr2⟩ := this
  rw [← hpr2]
  exact analyzePairsGo_valid compl retries hr (split_sections content) 1 pr hpr

theorem C10_results_wellformed_witness :
    1 ≤ 1 ∧
      ({ case := "Incident 1", analysis := "\x7b\x7d" } : IncidentResult) ∈
        (analyze_text (fun _ _ => some "\x7b\x7d") "hello" 1).analysis ∧
      (parseJson ("\x7b\x7d" : String)).isSome = true ∧ ("Incident 1" : String) ≠ "" :=
  ⟨le_refl 1, by decide,
   (C10_results_wellformed "hello" (fun _ _ => some "\x7b\x7d") 1 (le_refl 1)
      { case := "Incident 1", analysis := "\x7b\x7d" } (by decide)).1,
   (C10_results_wellformed "hello" (fun _ _ => some "\x7b\x7d") 1 (le_refl 1)
      { case := "Incident 1", analysis := "\x7b\x7d" } (by decide)).2⟩

/-! ### Claim C7 (amended part): clean_text output shape -/

/-- Whether a character list contains any non-whitespace character. -/
def hasNonWs (cs : List Char) : Bool := cs.any (fun c => !(isPyWs c))

theorem hasNonWs_cons (c : Char) (cs : List Char) :
    hasNonWs (c :: cs) = (!(isPyWs c) || hasNonWs cs) := rfl

theorem removeIntraGo_hasNonWs :
    ∀ (cs : List Char) (p : Option Char), hasNonWs (removeIntraGo p cs) = hasNonWs cs := by
  intro cs
  induction cs with
  | nil => intro p; rfl
  | cons c rest ih =>
    intro p
    simp only [removeIntraGo]
    split
    · rename_i hcond
      have hws : isPyWs c = true := by
        by_contra hcc
        have hf : isPyWs c = false := by simpa using hcc
        simp [hf] at hcond
      rw [ih (some c), hasNonWs_cons, hws]
      simp
    · rw [hasNonWs_cons, hasNonWs_cons, ih (some c)]

theorem collapseGo_hasNonWs :
    ∀ (cs : List Char) (b : Bool), hasNonWs (collapseGo b cs) = hasNonWs cs := by
  intro cs
  induction cs with
  | nil => intro b; rfl
  | cons c rest ih =>
    intro b
    simp only [collapseGo]
    by_cases hws : isPyWs c = true
    · rw [if_pos hws]
      cases b with
      | true =>
        rw [if_pos rfl, ih true, hasNonWs_cons, hws]
        simp
      | false =>
        rw [if_neg (by simp), hasNonWs_cons, hasNonWs_cons, ih true, hws]
        simp [isPyWs]
    · rw [if_neg hws, hasNonWs_cons, hasNonWs_cons, ih false]

theorem dropWhile_hasNonWs :
    ∀ cs : List Char, hasNonWs (cs.dropWhile isPyWs) = hasNonWs cs := by
  intro cs
  induction cs with
  | nil => rfl
  | cons c rest ih =>
    by_cases hws : isPyWs c = true
    · rw [List.dropWhile_cons_of_pos hws, ih, hasNonWs_cons, hws]
      simp
    · rw [List.dropWhile_cons_of_neg hws]

theorem reverse_hasNonWs (cs : List Char) : hasNonWs cs.reverse = hasNonWs cs := by
  simp [hasNonWs]

theorem pyStripL_hasNonWs (cs : List Char) : hasNonWs (pyStripL cs) = hasNonWs cs := by
  unfold pyStripL
  rw [reverse_hasNonWs, dropWhile_hasNonWs, reverse_hasNonWs, dropWhile_hasNonWs]

theorem cleanTextL_hasNonWs (cs : List Char) : hasNonWs (cleanTextL cs) = hasNonWs cs := by
  unfold cleanTextL
  by_cases h : cs.isEmpty = true
  · rw [if_pos h, List.isEmpty_iff.mp h]
  · rw [if_neg h, pyStripL_hasNonWs, collapseGo_hasNonWs, removeIntraGo_hasNonWs]

theorem dropWhile_eq_nil_of_all_ws (cs : List Char) (h : hasNonWs cs = false) :
    cs.dropWhile isPyWs = [] := by
  rw [List.dropWhile_eq_nil_iff]
  intro c hc
  unfold hasNonWs at h
  rw [List.any_eq_false] at h
  simpa using h c hc

theorem cleanTextL_eq_nil_iff (cs : List Char) :
    cleanTextL cs = [] ↔ hasNonWs cs = false := by
  constructor
  · intro h
    have := cleanTextL_hasNonWs cs
    rw [h] at this
    exact this.symm
  · intro h
    unfold cleanTextL
    by_cases he : cs.isEmpty = true
    · rw [if_pos he]
    · rw [if_neg he]
      unfold pyStripL
      have h1 : hasNonWs (collapseGo false (removeIntraGo none cs)) = false := by
        rw [collapseGo_hasNonWs, removeIntraGo_hasNonWs, h]
      rw [dropWhile_eq_nil_of_all_ws _ h1]
      simp

theorem collapseGo_mem_space :
    ∀ (cs : List Char) (b : Bool) (c : Char),
      c ∈ collapseGo b cs → isPyWs c = true → c = ' ' := by
  intro cs
  induction cs with
  | nil => intro b c hc; simp [collapseGo] at hc
  | cons c0 rest ih =>
    intro b c hc hws
    simp only [collapseGo] at hc
    by_cases h0 : isPyWs c0 = true
    · rw [if_pos h0] at hc
      cases b with
      | true =>
        rw [if_pos rfl] at hc
        exact ih true c hc hws
      | false =>
        rw [if_neg (by simp)] at hc
        rcases List.mem_cons.mp hc with h | h
        · exact h
        · exact ih true c h hws
    · rw [if_neg h0] at hc
      rcases List.mem_cons.mp hc with h | h
      · subst h; exact absurd hws (by simpa using h0)
      · exact ih false c h hws

theorem mem_pyStripL (cs : List Char) (c : Char) (h : c ∈ pyStripL cs) : c ∈ cs := by
  unfold pyStripL at h
  rw [List.mem_reverse] at h
  have h2 := (List.dropWhile_sublist (l := (cs.dropWhile isPyWs).reverse) isPyWs).subset h
  rw [List.mem_reverse] at h2
  exact (List.dropWhile_sublist isPyWs).subset h2

theorem head?_dropWhile_not (p : Char → Bool) :
    ∀ (cs : List Char) (c : Char), (cs.dropWhile p).head? = some c → p c = false := by
  intro cs
  induction cs with
  | nil => intro c h; simp at h
  | cons c0 rest ih =>
    intro c h
    by_cases h0 : p c0 = true
    · rw [List.dropWhile_cons_of_pos h0] at h
      exact ih c h
    · rw [List.dropWhile_cons_of_neg h0] at h
      simp only [List.head?_cons, Option.some.injEq] at h
      subst h
      simpa using h0

theorem getLast?_dropWhile (p : Char → Bool) :
    ∀ cs : List Char, cs.dropWhile p ≠ [] → (cs.dropWhile p).getLast? = cs.getLast? := by
  intro cs
  induction cs with
  | nil => intro h; simp at h
  | cons c0 rest ih =>
    intro h
    by_cases h0 : p c0 = true
    · rw [List.dropWhile_cons_of_pos h0] at h ⊢
      rw [ih h]
      rcases rest with _ | ⟨c1, rest'⟩
      · simp at h
      · rw [List.getLast?_cons_cons]
    · rw [List.dropWhile_cons_of_neg h0]

theorem head?_pyStripL_not_ws (cs : List Char) (c : Char)
    (h : (pyStripL cs).head? = some c) : isPyWs c = false := by
  unfold pyStripL at h
  rw [List.head?_reverse] at h
  have hne : ((cs.dropWhile isPyWs).reverse).dropWhile isPyWs ≠ [] := by
    intro he
    rw [he] at h
    simp at h
  rw [getLast?_dropWhile _ _ hne, List.getLast?_reverse] at h
  exact head?_dropWhile_not _ _ _ h

theorem getLast?_pyStripL_not_ws (cs : List Char) (c : Char)
    (h : (pyStripL cs).getLast? = some c) : isPyWs c = false := by
  unfold pyStripL at h
  rw [List.getLast?_reverse] at h
  exact head?_dropWhile_not _ _ _ h

theorem collapseGo_chain :
    ∀ (cs : List Char) (b : Bool),
      List.Chain' (fun a b : Char => isPyWs a = false ∨ isPyWs b = false) (collapseGo b cs) ∧
        (b = true → ∀ c, (collapseGo b cs).head? = some c → isPyWs c = false) := by
  intro cs
  induction cs with
  | nil => intro b; exact ⟨List.chain'_nil, fun _ c h => by simp [collapseGo] at h⟩
  | cons c0 rest ih =>
    intro b
    simp only [collapseGo]
    by_cases h0 : isPyWs c0 = true
    · rw [if_pos h0]
      cases b with
      | true =>
        rw [if_pos rfl]
        exact ih true
      | false =>
        rw [if_neg (by simp)]
        refine ⟨?_, fun hb => by simp at hb⟩
        rw [List.chain'_cons']
        constructor
        · intro y hy
          exact Or.inr ((ih true).2 rfl y hy)
        · exact (ih true).1
    · rw [if_neg h0]
      refine ⟨?_, ?_⟩
      · rw [List.chain'_cons']
        exact ⟨fun y _ => Or.inl (by simpa using h0), (ih false).1⟩
      · intro _ c h
        simp only [List.head?_cons, Option.some.injEq] at h
        subst h
        simpa using h0

theorem chain'_dropWhile {R : Char → Char → Prop} {p : Char → Bool} :
    ∀ cs : List Char, List.Chain' R cs → List.Chain' R (cs.dropWhile p) := by
  intro cs
  induction cs with
  | nil => intro h; exact h
  | cons c0 rest ih =>
    intro h
    by_cases h0 : p c0 = true
    · rw [List.dropWhile_cons_of_pos h0]
      exact ih h.tail
    · rw [List.dropWhile_cons_of_neg h0]
      exact h

theorem chain'_reverse_sym {R : Char → Char → Prop} (hsym : ∀ a b, R a b → R b a)
    (cs : List Char) (h : List.Chain' R cs) : List.Chain' R cs.reverse := by
  rw [List.chain'_reverse]
  exact h.imp (fun a b hab => hsym a b hab)

theorem pyStripL_chain {R : Char → Char → Prop} (hsym : ∀ a b, R a b → R b a)
    (cs : List Char) (h : List.Chain' R cs) : List.Chain' R (pyStripL cs) := by
  unfold pyStripL
  exact chain'_reverse_sym hsym _ (chain'_dropWhile _
    (chain'_reverse_sym hsym _ (chain'_dropWhile _ h)))

theorem cleanTextL_chain (cs : List Char) :
    List.Chain' (fun a b : Char => isPyWs a = false ∨ isPyWs b = false) (cleanTextL cs) := by
  unfold cleanTextL
  by_cases he : cs.isEmpty = true
  · rw [if_pos he]
    exact List.chain'_nil
  · rw [if_neg he]
    exact pyStripL_chain (fun a b hab => hab.symm) _ (collapseGo_chain _ false).1

/-- Claim C7, amended: `clean_text` deletes single whitespace between word
characters, collapses remaining whitespace runs and trims — so its output
is in normal form: it is empty exactly when the input has no
non-whitespace character (in particular also on whitespace-only input);
its whitespace characters are all plain spaces; it neither starts nor ends
with whitespace; and no two adjacent characters are both whitespace.  It
never raises (it is a total function). -/
theorem C7_amended (s : String) :
    (clean_text s = "" ↔ hasNonWs s.data = false) ∧
      (∀ c ∈ (clean_text s).data, isPyWs c = true → c = ' ') ∧
      (∀ c, (clean_text s).data.head? = some c → isPyWs c = false) ∧
      (∀ c, (clean_text s).data.getLast? = some c → isPyWs c = false) ∧
      List.Chain' (fun a b : Char => isPyWs a = false ∨ isPyWs b = false)
        (clean_text s).data := by
  have hdata : (clean_text s).data = cleanTextL s.data := rfl
  refine ⟨⟨?_, ?_⟩, ?_, ?_, ?_, ?_⟩
  · intro h
    rw [← cleanTextL_eq_nil_iff]
    rw [← hdata, h]
  · intro h
    apply String.ext
    rw [hdata]
    exact (cleanTextL_eq_nil_iff _).mpr h
  · intro c hc hws
    rw [hdata] at hc
    unfold cleanTextL at hc
    by_cases he : s.data.isEmpty = true
    · rw [if_pos he] at hc
      simp at hc
    · rw [if_neg he] at hc
      exact collapseGo_mem_space _ false c (mem_pyStripL _ c hc) hws
  · intro c hc
    rw [hdata] at hc
    unfold cleanTextL at hc
    by_cases he : s.data.isEmpty = true
    · rw [if_pos he] at hc
      simp at hc
    · rw [if_neg he] at hc
      exact head?_pyStripL_not_ws _ c hc
  · intro c hc
    rw [hdata] at hc
    unfold cleanTextL at hc
    by_cases he : s.data.isEmpty = true
    · rw [if_pos he] at hc
      simp at hc
    · rw [if_neg he] at hc
      exact getLast?_pyStripL_not_ws _ c hc
  · rw [hdata]
    exact cleanTextL_chain s.data

theorem C7_amended_witness :
    hasNonWs (" \t " : String).data = false ∧ clean_text " \t " = "" :=
  ⟨by decide, (C7_amended " \t ").1.mpr (by decide)⟩

/-! ### Claim C9 (amended part) -/

theorem splitLinesGo_append_break :
    ∀ (xs acc rest : List Char), (∀ c ∈ xs, isLineBreak c = false) →
      splitLinesGo acc (xs ++ '\n' :: rest) = (acc.reverse ++ xs) :: splitLinesGo [] rest := by
  intro xs
  induction xs with
  | nil =>
    intro acc rest _
    rw [List.nil_append]
    rw [splitLinesGo.eq_3 _ _ _ (fun r h1 _ => absurd h1 (by decide))]
    rw [if_pos (by decide)]
    simp
  | cons c xs ih =>
    intro acc rest hnb
    have hc : isLineBreak c = false := hnb c (List.mem_cons_self _ _)
    have hcr : c ≠ '\r' := by
      intro he
      subst he
      exact absurd hc (by decide)
    rw [List.cons_append]
    rw [splitLinesGo.eq_3 _ _ _ (fun r h1 _ => hcr h1)]
    rw [if_neg (by simp [hc])]
    rw [ih (c :: acc) rest (fun d hd => hnb d (List.mem_cons_of_mem _ hd))]
    simp

theorem splitLinesGo_no_break :
    ∀ (xs acc : List Char), (∀ c ∈ xs, isLineBreak c = false) → (acc ≠ [] ∨ xs ≠ []) →
      splitLinesGo acc xs = [acc.reverse ++ xs] := by
  intro xs
  induction xs with
  | nil =>
    intro acc _ hne
    have hacc : acc ≠ [] := by
      rcases hne with h | h
      · exact h
      · exact absurd rfl h
    simp [splitLinesGo, List.isEmpty_iff, hacc]
  | cons c xs ih =>
    intro acc hnb _
    have hc : isLineBreak c = false := hnb c (List.mem_cons_self _ _)
    have hcr : c ≠ '\r' := by
      intro he
      subst he
      exact absurd hc (by decide)
    rw [splitLinesGo.eq_3 _ _ _ (fun r h1 _ => hcr h1)]
    rw [if_neg (by simp [hc])]
    rw [ih (c :: acc) (fun d hd => hnb d (List.mem_cons_of_mem _ hd)) (Or.inl (by simp))]
    simp

theorem pySplitlines_two_headings (b1 b2 : String)
    (hbr1 : ∀ c ∈ b1.data, isLineBreak c = false)
    (hbr2 : ∀ c ∈ b2.data, isLineBreak c = false)
    (hb2 : b2.data ≠ []) :
    pySplitlines ("Test Case 1\n" ++ b1 ++ "\nTest Case 2\n" ++ b2).data =
      [("Test Case 1" : String).data, b1.data, ("Test Case 2" : String).data, b2.data] := by
  have h1 : ("Test Case 1\n" : String).data = ("Test Case 1" : String).data ++ ['\n'] := by
    decide
  have h2 : ("\nTest Case 2\n" : String).data =
      '\n' :: (("Test Case 2" : String).data ++ ['\n']) := by
    decide
  have hdata : ("Test Case 1\n" ++ b1 ++ "\nTest Case 2\n" ++ b2).data =
      ("Test Case 1" : String).data ++ '\n' ::
        (b1.data ++ '\n' :: (("Test Case 2" : String).data ++ '\n' :: b2.data)) := by
    rw [String.data_append, String.data_append, String.data_append, h1, h2]
    simp [List.append_assoc]
  unfold pySplitlines
  rw [hdata]
  rw [splitLinesGo_append_break _ _ _ (by decide)]
  rw [splitLinesGo_append_break _ _ _ hbr1]
  rw [splitLinesGo_append_break _ _ _ (by decide)]
  rw [splitLinesGo_no_break _ _ hbr2 (Or.inr hb2)]
  simp

/-- Claim C9, amended: with headings `Test Case 1` and `Test Case 2` each
followed by a body line of at least 80 characters, `_split_sections`
returns exactly two sections, in document order; but each title is the
`normalize_title` of its heading line (here `"Testcase 1"` /
`"Testcase 2"`, the inner spaces having been removed by `clean_text`) and
each body is the `clean_text` of the stripped intervening line plus a
trailing space — not the verbatim text between the headings. -/
theorem C9_amended (b1 b2 : String)
    (hbr1 : ∀ c ∈ b1.data, isLineBreak c = false)
    (hbr2 : ∀ c ∈ b2.data, isLineBreak c = false)
    (hm1 : matchHeading (pyStripL b1.data) = false)
    (hm2 : matchHeading (pyStripL b2.data) = false)
    (_hlen1 : 80 ≤ b1.data.length) (hlen2 : 80 ≤ b2.data.length) :
    split_sections ("Test Case 1\n" ++ b1 ++ "\nTest Case 2\n" ++ b2) =
      [{ title := "Testcase 1", body := ⟨cleanTextL (pyStripL b1.data ++ [' '])⟩ },
       { title := "Testcase 2", body := ⟨cleanTextL (pyStripL b2.data ++ [' '])⟩ }] := by
  have hb2 : b2.data ≠ [] := by
    intro he
    rw [he] at hlen2
    simp at hlen2
  have hH1 : matchHeading (pyStripL ("Test Case 1" : String).data) = true := by decide
  have hH2 : matchHeading (pyStripL ("Test Case 2" : String).data) = true := by decide
  have hne1 : ((pyStripL ("Test Case 1" : String).data).isEmpty &&
      (([] : List Char) ++ pyStripL b1.data ++ [' ']).isEmpty) = false := by
    simp [show (pyStripL ("Test Case 1" : String).data).isEmpty = false from by decide]
  have hne2 : ((pyStripL ("Test Case 2" : String).data).isEmpty &&
      (([] : List Char) ++ pyStripL b2.data ++ [' ']).isEmpty) = false := by
    simp [show (pyStripL ("Test Case 2" : String).data).isEmpty = false from by decide]
  have ht1 : (⟨normalizeTitleL (pyStripL ("Test Case 1" : String).data)⟩ : String) =
      "Testcase 1" := by decide
  have ht2 : (⟨normalizeTitleL (pyStripL ("Test Case 2" : String).data)⟩ : String) =
      "Testcase 2" := by decide
  unfold split_sections
  rw [pySplitlines_two_headings b1 b2 hbr1 hbr2 hb2]
  rw [splitGo.eq_2, if_pos hH1, if_pos (by decide)]
  rw [splitGo.eq_2, if_neg (by simp [hm1])]
  rw [splitGo.eq_2, if_pos hH2, if_neg (by simp [hne1])]
  rw [splitGo.eq_2, if_neg (by simp [hm2])]
  rw [splitGo.eq_1, if_neg (by simp [hne2])]
  simp only [List.map_cons, List.map_nil, ht1, ht2, List.nil_append]


theorem C9_amended_witness :
    split_sections
        ("Test Case 1\n" ++ "aa bb cc dd ee ff gg hh ii jj kk ll mm nn oo pp qq rr ss tt uu vv ww xx yy zz ab cd" ++ "\nTest Case 2\n" ++ "one two three four five six seven eight nine ten eleven twelve thirteen fourteen fifteen") =
      [{ title := "Testcase 1",
         body := ⟨cleanTextL (pyStripL ("aa bb cc dd ee ff gg hh ii jj kk ll mm nn oo pp qq rr ss tt uu vv ww xx yy zz ab cd" : String).data ++ [' '])⟩ },
       { title := "Testcase 2",
         body := ⟨cleanTextL (pyStripL ("one two three four five six seven eight nine ten eleven twelve thirteen fourteen fifteen" : String).data ++ [' '])⟩ }] :=
  C9_amended
    "aa bb cc dd ee ff gg hh ii jj kk ll mm nn oo pp qq rr ss tt uu vv ww xx yy zz ab cd"
    "one two three four five six seven eight nine ten eleven twelve thirteen fourteen fifteen"
    (by decide) (by decide) (by decide) (by decide) (by decide) (by decide)

end Analyzer
